import Mathlib

set_option maxRecDepth 100000

/-!
Verification development for the wasmd message-translation layer
(`x/wasm/keeper/handler_plugin_encoders.go`).

The Go source is shallowly embedded: every encoder becomes a Lean
function over explicit data types.  Go functions returning
`([]sdk.Msg, error)` become functions into `GoRes`, which also has a
`panics` outcome modelling a Go runtime panic (the cosmos-sdk integer
type panics when a sum exceeds 256 bits).  Machine integers are
modelled as `Nat`/`Int` with explicit bounds where overflow matters.
Library functions from cosmos-sdk / wasmvm that the file under
verification calls (string-to-integer parsing, coin validation,
coin-set addition and sorting) are modelled in Lean next to the
embedding; each such definition carries a comment naming the library
function it models.
-/

/-- Base error kinds of the registered sdk errors and ad-hoc errors that the
encoders produce.  `unknownMsg` models `types.ErrUnknownMsg`, `invalidMsg`
models `types.ErrInvalidMsg`, `invalid` models `types.ErrInvalid`,
`invalidCoins` models `sdkerrors.ErrInvalidCoins`; `negativeAmount` and
`invalidDenom` model the ad-hoc errors returned by `sdk.Coin.Validate`, and
`decFromStr` models the parse error of `sdkmath.LegacyNewDecFromStr`. -/
inductive SdkErrKind where
  | unknownMsg
  | invalidMsg
  | invalid
  | invalidCoins
  | negativeAmount
  | invalidDenom
  | decFromStr
deriving DecidableEq

/-- An error value: the base kind (preserved by `errorsmod.Wrap`, which is
what `errors.Is` inspects) together with the stack of wrap messages,
innermost last. -/
structure EncErr where
  kind : SdkErrKind
  notes : List String
deriving DecidableEq

/-- Models `errorsmod.Wrap`: keeps the base kind, prepends a message. -/
def wrapE (note : String) (e : EncErr) : EncErr := ⟨e.kind, note :: e.notes⟩

/-- Outcome of a Go call returning `(α, error)`: success, a non-nil error
(the value returned alongside it is discarded, as every caller does), or a
runtime panic. -/
inductive GoRes (α : Type) where
  | ok : α → GoRes α
  | err : EncErr → GoRes α
  | panics : GoRes α
deriving DecidableEq

/-- wasmvm-side coin: denomination plus a string-encoded amount. -/
structure WasmCoin where
  denom : String
  amount : String
deriving DecidableEq

/-- sdk-side coin: denomination plus an arbitrary-precision integer amount
(cosmos-sdk `Int` caps the bit length at 256; the cap shows up in the
parsing and addition models below, not in the representation). -/
structure SdkCoin where
  denom : String
  amount : Int
deriving DecidableEq

/-- Models `sdkmath.NewIntFromString`: an optional sign followed by decimal
digits, rejected when the absolute value needs more than 256 bits.
(Go parses via `big.Int.SetString` with base 0; the base-prefix forms such
as hexadecimal input are not modelled — no claim depends on them.) -/
def newIntFromString (s : String) : Option Int :=
  let signDigits : Bool × List Char :=
    match s.toList with
    | '-' :: rest => (true, rest)
    | '+' :: rest => (false, rest)
    | l => (false, l)
  if signDigits.2 = [] then none
  else if signDigits.2.all Char.isDigit then
    let n : Nat := signDigits.2.foldl (fun acc c => acc * 10 + (c.toNat - 48)) 0
    if n < 2 ^ 256 then some (if signDigits.1 then -(n : Int) else (n : Int)) else none
  else none

/-- Character class of `sdk.ValidateDenom`: letters, digits, and `/:._-`. -/
def isDenomChar (c : Char) : Bool :=
  c.isAlpha || c.isDigit || c = '/' || c = ':' || c = '.' || c = '_' || c = '-'

/-- Models `sdk.ValidateDenom`: a letter followed by 2 to 127 characters
from the denom character class. -/
def validateDenom (s : String) : Bool :=
  match s.toList with
  | [] => false
  | c :: rest =>
    c.isAlpha && decide (2 ≤ rest.length) && decide (rest.length ≤ 127) && rest.all isDenomChar

/-- Models `sdk.Coin.Validate`: the denomination syntax is checked first,
then non-negativity of the amount. -/
def coinValidate (c : SdkCoin) : Option EncErr :=
  if validateDenom c.denom = false then some ⟨SdkErrKind.invalidDenom, [c.denom]⟩
  else if c.amount < 0 then some ⟨SdkErrKind.negativeAmount, [toString c.amount]⟩
  else none

/-- Embeds `ConvertWasmCoinToSdkCoin`: parse the amount (failure wraps
`ErrInvalidCoins` with amount and denom concatenated), then return the coin
together with its `Validate` result. -/
def ConvertWasmCoinToSdkCoin (coin : WasmCoin) : GoRes SdkCoin :=
  match newIntFromString coin.amount with
  | none => GoRes.err ⟨SdkErrKind.invalidCoins, [coin.amount ++ coin.denom]⟩
  | some amount =>
    let r : SdkCoin := ⟨coin.denom, amount⟩
    match coinValidate r with
    | some e => GoRes.err e
    | none => GoRes.ok r

/-- Denomination order used by `sdk.Coins.Sort` (Go compares the strings
byte-wise; lexicographic comparison of the character lists agrees with it
on the ASCII denominations the validator admits). -/
def dle (a b : SdkCoin) : Prop := a.denom.toList ≤ b.denom.toList

/-- Strict denomination order; a canonical coin list is `Pairwise dlt`. -/
def dlt (a b : SdkCoin) : Prop := a.denom.toList < b.denom.toList

instance : DecidableRel dle := fun a b => inferInstanceAs (Decidable (a.denom.toList ≤ b.denom.toList))

instance : IsTotal SdkCoin dle := ⟨fun a b => le_total a.denom.toList b.denom.toList⟩

instance : IsTrans SdkCoin dle := ⟨fun _ _ _ h1 h2 => le_trans h1 h2⟩

/-- Models `sdk.Coins.Sort`: sort by denomination ascending. -/
def sortCoins (l : List SdkCoin) : List SdkCoin := List.insertionSort dle l

/-- Sum of the amounts a coin list carries for one denomination. -/
def sumFor (d : String) (l : List SdkCoin) : Int :=
  ((l.filter (fun c => c.denom = d)).map SdkCoin.amount).sum

/-- One step of the running sum inside `safeAdd`: cosmos-sdk `Int.Add`
panics (modelled as `none`) when the result needs more than 256 bits. -/
def addWithCap (a : Option Int) (x : Int) : Option Int :=
  a.bind (fun v => let s := v + x; if s.natAbs < 2 ^ 256 then some s else none)

/-- Models the per-denomination accumulation loop of `sdk.Coins.safeAdd`. -/
def sumEntries (l : List SdkCoin) : Option Int :=
  l.foldl (fun a c => addWithCap a c.amount) (some 0)

/-- Models `sdk.Coins.Add` (via `safeAdd`) as the encoders call it, with a
single added coin: group all coins of `acc ++ [c]` by denomination, sum
each group (panicking on 256-bit overflow), drop zero sums, and sort the
result by denomination. -/
def coinsAdd (acc : List SdkCoin) (c : SdkCoin) : GoRes (List SdkCoin) :=
  let all := acc ++ [c]
  let denoms := (all.map SdkCoin.denom).dedup
  let sums := denoms.map (fun d => (d, sumEntries (all.filter (fun x => x.denom = d))))
  if sums.any (fun p => p.2.isNone) then GoRes.panics
  else
    GoRes.ok (sortCoins ((sums.filterMap (fun p => p.2.map (fun v => SdkCoin.mk p.1 v))).filter
      (fun x => decide (x.amount ≠ 0))))

/-- The loop body of `ConvertWasmCoinsToSdkCoins`: convert each wasm coin
and fold it into the accumulated `sdk.Coins` value. -/
def convertLoop : List SdkCoin → List WasmCoin → GoRes (List SdkCoin)
  | acc, [] => GoRes.ok acc
  | acc, c :: cs =>
    match ConvertWasmCoinToSdkCoin c with
    | GoRes.err e => GoRes.err e
    | GoRes.panics => GoRes.panics
    | GoRes.ok sc =>
      match coinsAdd acc sc with
      | GoRes.err e => GoRes.err e
      | GoRes.panics => GoRes.panics
      | GoRes.ok acc2 => convertLoop acc2 cs

/-- Embeds `ConvertWasmCoinsToSdkCoins`: fold the coins through
`Coins.Add`, then `Sort` the final value. -/
def ConvertWasmCoinsToSdkCoins (coins : List WasmCoin) : GoRes (List SdkCoin) :=
  match convertLoop [] coins with
  | GoRes.ok toSend => GoRes.ok (sortCoins toSend)
  | GoRes.err e => GoRes.err e
  | GoRes.panics => GoRes.panics

/-- Parsed amount of a wasm coin, `0` when the amount does not parse. -/
def wAmount (c : WasmCoin) : Int :=
  match newIntFromString c.amount with
  | some a => a
  | none => 0

/-- Sum of the parsed amounts an input list carries for one denomination. -/
def wsumFor (d : String) (l : List WasmCoin) : Int :=
  ((l.filter (fun c => c.denom = d)).map wAmount).sum

/-- A wasm coin whose amount parses to a non-negative integer and whose
denomination passes the syntax check. -/
def goodCoin (c : WasmCoin) : Bool :=
  (match newIntFromString c.amount with
   | some a => decide (0 ≤ a)
   | none => false) && validateDenom c.denom

/-- Proof infrastructure: the per-denomination entry list `safeAdd` builds. -/
def entryList (ds : List String) (g : String → Int) : List SdkCoin :=
  ds.map (fun d => SdkCoin.mk d (g d))

/-- Proof infrastructure: entry list with zero sums dropped, then sorted —
the value `safeAdd` returns. -/
def canonList (ds : List String) (g : String → Int) : List SdkCoin :=
  sortCoins ((entryList ds g).filter (fun x => decide (x.amount ≠ 0)))

/-- A wasm coin whose amount string is malformed in the sense of the spec:
it does not parse at all (non-numeric or empty), or parses negative. -/
def malformedAmount (c : WasmCoin) : Prop :=
  newIntFromString c.amount = none ∨ ∃ a, newIntFromString c.amount = some a ∧ a < 0

/-- Contract and account addresses; `sender.String()` is the identity in
this model. -/
abbrev Addr := String

/-- Observable effects an encoder performs through the execution context:
a gas charge on the context gas meter, and an invocation of the codec
unpack operation.  Trace order is execution order. -/
inductive Event where
  | gas : Nat → String → Event
  | unpackCall : String → Event
deriving DecidableEq

/-- Models `sdk.Context` as the encoders see it: the trace of effects
performed through it so far. -/
structure Ctx where
  events : List Event
deriving DecidableEq

/-- Models `ctx.GasMeter().ConsumeGas(amount, descriptor)`. -/
def consumeGas (ctx : Ctx) (amount : Nat) (descr : String) : Ctx :=
  ⟨ctx.events ++ [Event.gas amount descr]⟩

/-- Records the invocation of `unpacker.UnpackAny` on the trace. -/
def recordUnpack (ctx : Ctx) (typeUrl : String) : Ctx :=
  ⟨ctx.events ++ [Event.unpackCall typeUrl]⟩

/-- wasmvm `BankMsg.Send`. -/
structure SendMsg where
  toAddress : String
  amount : List WasmCoin
deriving DecidableEq

/-- wasmvm `BankMsg`. -/
structure BankMsg where
  send : Option SendMsg
deriving DecidableEq

structure SetWithdrawAddressMsg where
  address : String
deriving DecidableEq

structure WithdrawDelegatorRewardMsg where
  validator : String
deriving DecidableEq

structure FundCommunityPoolMsg where
  amount : List WasmCoin
deriving DecidableEq

/-- wasmvm `DistributionMsg`. -/
structure DistributionMsg where
  setWithdrawAddress : Option SetWithdrawAddressMsg
  withdrawDelegatorReward : Option WithdrawDelegatorRewardMsg
  fundCommunityPool : Option FundCommunityPoolMsg
deriving DecidableEq

structure DelegateMsg where
  validator : String
  amount : WasmCoin
deriving DecidableEq

structure RedelegateMsg where
  srcValidator : String
  dstValidator : String
  amount : WasmCoin
deriving DecidableEq

structure UndelegateMsg where
  validator : String
  amount : WasmCoin
deriving DecidableEq

/-- wasmvm `StakingMsg`. -/
structure StakingMsg where
  delegate : Option DelegateMsg
  redelegate : Option RedelegateMsg
  undelegate : Option UndelegateMsg
deriving DecidableEq

/-- wasmvm `AnyMsg`: a type URL and an opaque value (bytes modelled as a
string). -/
structure AnyMsg where
  typeURL : String
  value : String
deriving DecidableEq

structure ExecuteMsg where
  contractAddr : String
  msg : String
  funds : List WasmCoin
deriving DecidableEq

structure InstantiateMsg where
  admin : String
  codeID : Nat
  label : String
  msg : String
  funds : List WasmCoin
deriving DecidableEq

structure Instantiate2Msg where
  admin : String
  codeID : Nat
  label : String
  msg : String
  funds : List WasmCoin
  salt : String
deriving DecidableEq

structure MigrateMsg where
  contractAddr : String
  newCodeID : Nat
  msg : String
deriving DecidableEq

structure UpdateAdminMsg where
  admin : String
  contractAddr : String
deriving DecidableEq

structure ClearAdminMsg where
  contractAddr : String
deriving DecidableEq

/-- wasmvm `WasmMsg`. -/
structure WasmMsg where
  execute : Option ExecuteMsg
  instantiate : Option InstantiateMsg
  instantiate2 : Option Instantiate2Msg
  migrate : Option MigrateMsg
  updateAdmin : Option UpdateAdminMsg
  clearAdmin : Option ClearAdminMsg
deriving DecidableEq

structure IBCTimeoutBlock where
  revision : Nat
  height : Nat
deriving DecidableEq

structure IBCTimeout where
  block : Option IBCTimeoutBlock
  timestamp : Nat
deriving DecidableEq

structure CloseChannelMsg where
  channelID : String
deriving DecidableEq

structure TransferMsg where
  channelID : String
  toAddress : String
  amount : WasmCoin
  timeout : IBCTimeout
  memo : String
deriving DecidableEq

/-- Fee-attachment payload; its contents are never inspected by the
encoder. -/
structure PayPacketFeeMsg where
  portID : String
  channelID : String
deriving DecidableEq

/-- wasmvm `IBCMsg`. -/
structure IBCMsg where
  closeChannel : Option CloseChannelMsg
  transfer : Option TransferMsg
  payPacketFee : Option PayPacketFeeMsg
  payPacketFeeAsync : Option PayPacketFeeMsg
deriving DecidableEq

/-- wasmvm IBCv2 payload; `EncodeIBCv2Msg` copies it field by field into
the host payload type, so a single record type models both sides. -/
structure IBC2Payload where
  sourcePort : String
  destinationPort : String
  version : String
  encoding : String
  value : String
deriving DecidableEq

structure IBC2SendPacketMsg where
  sourceClient : String
  payloads : List IBC2Payload
  timeout : Nat
deriving DecidableEq

/-- wasmvm `IBC2Msg`. -/
structure IBC2Msg where
  sendPacket : Option IBC2SendPacketMsg
deriving DecidableEq

/-- wasmvm vote option: the four members of the closed enumeration plus a
constructor for any other value of the open Go interface. -/
inductive WasmVoteOption where
  | yes
  | no
  | abstain
  | noWithVeto
  | unknown : String → WasmVoteOption
deriving DecidableEq

structure VoteMsg where
  proposalId : Nat
  option : WasmVoteOption
deriving DecidableEq

structure WeightedVoteOption where
  option : WasmVoteOption
  weight : String
deriving DecidableEq

structure VoteWeightedMsg where
  proposalId : Nat
  options : List WeightedVoteOption
deriving DecidableEq

/-- wasmvm `GovMsg`. -/
structure GovMsg where
  vote : Option VoteMsg
  voteWeighted : Option VoteWeightedMsg
deriving DecidableEq

/-- `gov/v1` vote options. -/
inductive VoteOptionV1 where
  | optionEmpty
  | optionYes
  | optionAbstain
  | optionNo
  | optionNoWithVeto
deriving DecidableEq

structure GovWeightedOption where
  option : VoteOptionV1
  weight : String
deriving DecidableEq

/-- Host (chain-native) messages the encoders construct, one constructor
per sdk message type used by the source file.  `transfer`s timeout height
is the (revision, height) pair of `ibcclienttypes.Height`. -/
inductive SdkMsg where
  | bankSend (fromAddress toAddress : String) (amount : List SdkCoin)
  | setWithdrawAddress (delegatorAddress withdrawAddress : String)
  | withdrawDelegatorReward (delegatorAddress validatorAddress : String)
  | fundCommunityPool (depositor : String) (amount : List SdkCoin)
  | delegate (delegatorAddress validatorAddress : String) (amount : SdkCoin)
  | beginRedelegate (delegatorAddress validatorSrcAddress validatorDstAddress : String)
      (amount : SdkCoin)
  | undelegate (delegatorAddress validatorAddress : String) (amount : SdkCoin)
  | executeContract (sender contract : String) (msg : String) (funds : List SdkCoin)
  | instantiateContract (sender admin : String) (codeID : Nat) (label : String)
      (msg : String) (funds : List SdkCoin)
  | instantiateContract2 (sender admin : String) (codeID : Nat) (label : String)
      (msg : String) (funds : List SdkCoin) (salt : String) (fixMsg : Bool)
  | migrateContract (sender contract : String) (codeID : Nat) (msg : String)
  | clearAdminMsg (sender contract : String)
  | updateAdminMsg (sender contract newAdmin : String)
  | channelCloseInit (portId channelId signer : String)
  | transfer (sourcePort sourceChannel : String) (token : SdkCoin) (sender receiver : String)
      (timeoutHeight : Nat × Nat) (timeoutTimestamp : Nat) (memo : String)
  | sendPacketV2 (sourceClient : String) (timeoutTimestamp : Nat)
      (payloads : List IBC2Payload) (signer : String)
  | govVote (proposalId : Nat) (voter : String) (option : VoteOptionV1) (metadata : String)
  | govVoteWeighted (proposalId : Nat) (voter : String) (options : List GovWeightedOption)
      (metadata : String)
deriving DecidableEq

/-- Models `codectypes.AnyUnpacker` together with
`codectypes.UnpackInterfaces`: `unpackAny` resolves a type URL and value
into a concrete host message (`none` is a decode failure), and
`unpackInterfaces` resolves nested references (`some text` is a failure
carrying `text`). -/
structure Unpacker where
  unpackAny : String → String → Option SdkMsg
  unpackInterfaces : SdkMsg → Option String

/-- `anyMsgGasCost` from the source: the gas cost for unpacking an
`AnyMsg`, in CosmWasm gas units. -/
def anyMsgGasCost : Nat := 700000

/-- Modelled from the spec: `types.DefaultGasMultiplier` is defined
outside the translation core; the source comment above `anyMsgGasCost`
fixes the resulting charge at 5 SDK gas, which pins the value used here. -/
def DefaultGasMultiplier : Nat := 140000

/-- Embeds `ConvertWasmIBCTimeoutHeightToCosmosHeight`: an absent timeout
block becomes the zero height. -/
def ConvertWasmIBCTimeoutHeightToCosmosHeight : Option IBCTimeoutBlock → Nat × Nat
  | none => (0, 0)
  | some b => (b.revision, b.height)

/-- Modelled from the spec: `PortIDForContract` is defined outside the
translation core; the spec says close-channel messages are addressed to
the port derived from the contract address by the external addressing
scheme, modelled here as prefixing the address. -/
def PortIDForContract (addr : Addr) : String := "wasm." ++ addr

/-- Models `uint64(time.Unix(0, int64(t)).Unix())` from `EncodeIBCv2Msg`:
the unsigned 64-bit nanosecond timeout is reinterpreted as a signed 64-bit
value, floor-divided by 1e9 by the Go time library, and cast back to
unsigned 64-bit. -/
def goUnixFromNanos (t : Nat) : Nat :=
  (Int.fdiv (if t < 2 ^ 63 then (t : Int) else (t : Int) - 2 ^ 64) 1000000000
    % (2 ^ 64 : Int)).toNat

/-- Value of an already-validated decimal digit list. -/
def digitsVal (l : List Char) : Nat :=
  l.foldl (fun acc c => acc * 10 + (c.toNat - 48)) 0

/-- Models `sdkmath.LegacyNewDecFromStr` (library code): an optional minus
sign, a non-empty integer digit part, an optional non-empty fractional
part of at most 18 digits; the value is the combined integer scaled to 18
decimals, rejected above the LegacyDec bit bound. -/
def legacyDecFromStr (s : String) : Option Int :=
  let neg := s.startsWith "-"
  let body := if neg then s.drop 1 else s
  let scaled : Option Nat :=
    match body.splitOn "." with
    | [ip] =>
      if ip.length ≠ 0 ∧ ip.toList.all Char.isDigit = true then
        some (digitsVal ip.toList * 10 ^ 18)
      else none
    | [ip, fp] =>
      if ip.length ≠ 0 ∧ fp.length ≠ 0 ∧ fp.length ≤ 18 ∧
          ip.toList.all Char.isDigit = true ∧ fp.toList.all Char.isDigit = true then
        some (digitsVal (ip.toList ++ fp.toList) * 10 ^ (18 - fp.length))
      else none
    | _ => none
  match scaled with
  | none => none
  | some n =>
    if n < 2 ^ 315 then some (if neg then -(n : Int) else (n : Int)) else none

/-- Models `LegacyDec.String`: sign, integer part, decimal point, and 18
zero-padded fractional digits. -/
def legacyDecToString (v : Int) : String :=
  let a := v.natAbs
  let ip := a / 10 ^ 18
  let fp := a % 10 ^ 18
  let fpStr := toString fp
  (if v < 0 then "-" else "") ++ toString ip ++ "." ++
    String.mk (List.replicate (18 - fpStr.length) '0') ++ fpStr

/-- Embeds `convertVoteOption`: the four members of the closed enumeration
map to the v1 options; any other value fails with `types.ErrInvalid`. -/
def convertVoteOption : WasmVoteOption → GoRes VoteOptionV1
  | WasmVoteOption.yes => GoRes.ok VoteOptionV1.optionYes
  | WasmVoteOption.no => GoRes.ok VoteOptionV1.optionNo
  | WasmVoteOption.noWithVeto => GoRes.ok VoteOptionV1.optionNoWithVeto
  | WasmVoteOption.abstain => GoRes.ok VoteOptionV1.optionAbstain
  | WasmVoteOption.unknown _ => GoRes.err ⟨SdkErrKind.invalid, []⟩

/-- Embeds `EncodeBankMsg`: no send sub-message is the unknown-variant
error, an empty amount list is an empty message list, otherwise the
normalized coins are wrapped into one bank send message. -/
def EncodeBankMsg (sender : Addr) (msg : BankMsg) : GoRes (List SdkMsg) :=
  match msg.send with
  | none => GoRes.err ⟨SdkErrKind.unknownMsg, ["unknown variant of Bank"]⟩
  | some s =>
    if s.amount = [] then GoRes.ok []
    else
      match ConvertWasmCoinsToSdkCoins s.amount with
      | GoRes.err e => GoRes.err e
      | GoRes.panics => GoRes.panics
      | GoRes.ok toSend => GoRes.ok [SdkMsg.bankSend sender s.toAddress toSend]

/-- Embeds `NoCustomMsg`: the default custom encoder always fails. -/
def NoCustomMsg (_sender : Addr) (_msg : String) : GoRes (List SdkMsg) :=
  GoRes.err ⟨SdkErrKind.unknownMsg, ["custom variant not supported"]⟩

/-- Embeds `EncodeDistributionMsg`. -/
def EncodeDistributionMsg (sender : Addr) (msg : DistributionMsg) : GoRes (List SdkMsg) :=
  match msg.setWithdrawAddress with
  | some m => GoRes.ok [SdkMsg.setWithdrawAddress sender m.address]
  | none =>
    match msg.withdrawDelegatorReward with
    | some m => GoRes.ok [SdkMsg.withdrawDelegatorReward sender m.validator]
    | none =>
      match msg.fundCommunityPool with
      | some m =>
        match ConvertWasmCoinsToSdkCoins m.amount with
        | GoRes.err e => GoRes.err e
        | GoRes.panics => GoRes.panics
        | GoRes.ok amt => GoRes.ok [SdkMsg.fundCommunityPool sender amt]
      | none => GoRes.err ⟨SdkErrKind.unknownMsg, ["unknown variant of Distribution"]⟩

/-- Embeds `EncodeStakingMsg`. -/
def EncodeStakingMsg (sender : Addr) (msg : StakingMsg) : GoRes (List SdkMsg) :=
  match msg.delegate with
  | some m =>
    match ConvertWasmCoinToSdkCoin m.amount with
    | GoRes.err e => GoRes.err e
    | GoRes.panics => GoRes.panics
    | GoRes.ok coin => GoRes.ok [SdkMsg.delegate sender m.validator coin]
  | none =>
    match msg.redelegate with
    | some m =>
      match ConvertWasmCoinToSdkCoin m.amount with
      | GoRes.err e => GoRes.err e
      | GoRes.panics => GoRes.panics
      | GoRes.ok coin => GoRes.ok [SdkMsg.beginRedelegate sender m.srcValidator m.dstValidator coin]
    | none =>
      match msg.undelegate with
      | some m =>
        match ConvertWasmCoinToSdkCoin m.amount with
        | GoRes.err e => GoRes.err e
        | GoRes.panics => GoRes.panics
        | GoRes.ok coin => GoRes.ok [SdkMsg.undelegate sender m.validator coin]
      | none => GoRes.err ⟨SdkErrKind.unknownMsg, ["unknown variant of Staking"]⟩

/-- Embeds `EncodeAnyMsg`: consume the fixed gas cost on the context gas
meter, then call the codec unpack (both recorded on the trace in that
order), then resolve nested interfaces; both failure modes wrap
`ErrInvalidMsg`. -/
def EncodeAnyMsg (unpacker : Unpacker) : Ctx → Addr → AnyMsg → Ctx × GoRes (List SdkMsg) :=
  fun ctx _sender msg =>
    let ctx2 := consumeGas ctx (anyMsgGasCost / DefaultGasMultiplier) "unpacking AnyMsg"
    let ctx3 := recordUnpack ctx2 msg.typeURL
    match unpacker.unpackAny msg.typeURL msg.value with
    | none => (ctx3, GoRes.err ⟨SdkErrKind.invalidMsg,
        ["Cannot unpack proto message with type URL: " ++ msg.typeURL]⟩)
    | some sdkMsg =>
      match unpacker.unpackInterfaces sdkMsg with
      | some errText => (ctx3, GoRes.err ⟨SdkErrKind.invalidMsg,
          ["UnpackInterfaces inside msg: " ++ errText]⟩)
      | none => (ctx3, GoRes.ok [sdkMsg])

/-- Embeds `EncodeWasmMsg`; `Instantiate2` always sets `FixMsg` to false. -/
def EncodeWasmMsg (sender : Addr) (msg : WasmMsg) : GoRes (List SdkMsg) :=
  match msg.execute with
  | some m =>
    match ConvertWasmCoinsToSdkCoins m.funds with
    | GoRes.err e => GoRes.err e
    | GoRes.panics => GoRes.panics
    | GoRes.ok coins => GoRes.ok [SdkMsg.executeContract sender m.contractAddr m.msg coins]
  | none =>
    match msg.instantiate with
    | some m =>
      match ConvertWasmCoinsToSdkCoins m.funds with
      | GoRes.err e => GoRes.err e
      | GoRes.panics => GoRes.panics
      | GoRes.ok coins =>
        GoRes.ok [SdkMsg.instantiateContract sender m.admin m.codeID m.label m.msg coins]
    | none =>
      match msg.instantiate2 with
      | some m =>
        match ConvertWasmCoinsToSdkCoins m.funds with
        | GoRes.err e => GoRes.err e
        | GoRes.panics => GoRes.panics
        | GoRes.ok coins =>
          GoRes.ok [SdkMsg.instantiateContract2 sender m.admin m.codeID m.label m.msg coins
            m.salt false]
      | none =>
        match msg.migrate with
        | some m => GoRes.ok [SdkMsg.migrateContract sender m.contractAddr m.newCodeID m.msg]
        | none =>
          match msg.clearAdmin with
          | some m => GoRes.ok [SdkMsg.clearAdminMsg sender m.contractAddr]
          | none =>
            match msg.updateAdmin with
            | some m => GoRes.ok [SdkMsg.updateAdminMsg sender m.contractAddr m.admin]
            | none => GoRes.err ⟨SdkErrKind.unknownMsg, ["unknown variant of Wasm"]⟩

/-- Embeds `EncodeIBCMsg`: close-channel, transfer (source port from the
chain-configured transfer port source), and the two explicitly rejected
fee sub-kinds. -/
def EncodeIBCMsg (portSource : Ctx → String) :
    Ctx → Addr → String → IBCMsg → Ctx × GoRes (List SdkMsg) :=
  fun ctx sender _contractIBCPortID msg =>
    match msg.closeChannel with
    | some m =>
      (ctx, GoRes.ok [SdkMsg.channelCloseInit (PortIDForContract sender) m.channelID sender])
    | none =>
      match msg.transfer with
      | some t =>
        match ConvertWasmCoinToSdkCoin t.amount with
        | GoRes.err e => (ctx, GoRes.err (wrapE "amount" e))
        | GoRes.panics => (ctx, GoRes.panics)
        | GoRes.ok amount =>
          (ctx, GoRes.ok [SdkMsg.transfer (portSource ctx) t.channelID amount sender t.toAddress
            (ConvertWasmIBCTimeoutHeightToCosmosHeight t.timeout.block) t.timeout.timestamp
            t.memo])
      | none =>
        match msg.payPacketFee with
        | some _ => (ctx, GoRes.err ⟨SdkErrKind.unknownMsg, ["pay packet fee not supported"]⟩)
        | none =>
          match msg.payPacketFeeAsync with
          | some _ =>
            (ctx, GoRes.err ⟨SdkErrKind.unknownMsg, ["pay packet fee async not supported"]⟩)
          | none => (ctx, GoRes.err ⟨SdkErrKind.unknownMsg, ["unknown variant of IBC"]⟩)

/-- Embeds `EncodeIBCv2Msg`: send-packet with field-wise payload copy and
the nanosecond-to-second timeout conversion. -/
def EncodeIBCv2Msg (sender : Addr) (msg : IBC2Msg) : GoRes (List SdkMsg) :=
  match msg.sendPacket with
  | some p =>
    GoRes.ok [SdkMsg.sendPacketV2 p.sourceClient (goUnixFromNanos p.timeout)
      (p.payloads.map (fun pl =>
        ⟨pl.sourcePort, pl.destinationPort, pl.version, pl.encoding, pl.value⟩))
      sender]
  | none => GoRes.err ⟨SdkErrKind.unknownMsg, ["unknown variant of IBCv2"]⟩

/-- The loop of the weighted-vote branch of `EncodeGovMsg`; the index is
carried for the 1-based error message. -/
def buildWeightedOpts : Nat → List WeightedVoteOption → GoRes (List GovWeightedOption)
  | _, [] => GoRes.ok []
  | i, v :: rest =>
    match legacyDecFromStr v.weight with
    | none => GoRes.err ⟨SdkErrKind.decFromStr, ["weight for vote " ++ toString (i + 1)]⟩
    | some w =>
      match convertVoteOption v.option with
      | GoRes.err e => GoRes.err (wrapE "vote option" e)
      | GoRes.panics => GoRes.panics
      | GoRes.ok opt =>
        match buildWeightedOpts (i + 1) rest with
        | GoRes.err e => GoRes.err e
        | GoRes.panics => GoRes.panics
        | GoRes.ok opts => GoRes.ok (⟨opt, legacyDecToString w⟩ :: opts)

/-- Embeds `EncodeGovMsg`: plain vote and weighted vote; the metadata
argument passed to `NewMsgVote` / `NewMsgVoteWeighted` is the empty
string. -/
def EncodeGovMsg (sender : Addr) (msg : GovMsg) : GoRes (List SdkMsg) :=
  match msg.vote with
  | some v =>
    match convertVoteOption v.option with
    | GoRes.err e => GoRes.err (wrapE "vote option" e)
    | GoRes.panics => GoRes.panics
    | GoRes.ok voteOption => GoRes.ok [SdkMsg.govVote v.proposalId sender voteOption ""]
  | none =>
    match msg.voteWeighted with
    | some vw =>
      match buildWeightedOpts 0 vw.options with
      | GoRes.err e => GoRes.err e
      | GoRes.panics => GoRes.panics
      | GoRes.ok opts => GoRes.ok [SdkMsg.govVoteWeighted vw.proposalId sender opts ""]
    | none => GoRes.err ⟨SdkErrKind.unknownMsg, ["unknown variant of gov"]⟩

/-- The abstract message: a record of nine optional variants, as the
wasmvm `CosmosMsg` struct. -/
structure CosmosMsg where
  bank : Option BankMsg
  custom : Option String
  distribution : Option DistributionMsg
  ibc : Option IBCMsg
  ibc2 : Option IBC2Msg
  staking : Option StakingMsg
  any : Option AnyMsg
  wasm : Option WasmMsg
  gov : Option GovMsg
deriving DecidableEq

/-- The encoder registry: one nilable function field per kind, as the Go
struct of function values. -/
structure MessageEncoders where
  Bank : Option (Addr → BankMsg → GoRes (List SdkMsg))
  Custom : Option (Addr → String → GoRes (List SdkMsg))
  Distribution : Option (Addr → DistributionMsg → GoRes (List SdkMsg))
  IBC : Option (Ctx → Addr → String → IBCMsg → Ctx × GoRes (List SdkMsg))
  IBC2 : Option (Addr → IBC2Msg → GoRes (List SdkMsg))
  Staking : Option (Addr → StakingMsg → GoRes (List SdkMsg))
  Any : Option (Ctx → Addr → AnyMsg → Ctx × GoRes (List SdkMsg))
  Wasm : Option (Addr → WasmMsg → GoRes (List SdkMsg))
  Gov : Option (Addr → GovMsg → GoRes (List SdkMsg))

/-- Embeds `DefaultEncoders`: every slot is populated with the default
encoder. -/
def DefaultEncoders (unpacker : Unpacker) (portSource : Ctx → String) : MessageEncoders :=
  { Bank := some EncodeBankMsg
    Custom := some NoCustomMsg
    Distribution := some EncodeDistributionMsg
    IBC := some (EncodeIBCMsg portSource)
    IBC2 := some EncodeIBCv2Msg
    Staking := some EncodeStakingMsg
    Any := some (EncodeAnyMsg unpacker)
    Wasm := some EncodeWasmMsg
    Gov := some EncodeGovMsg }

/-- Embeds `MessageEncoders.Merge`: a nil override record returns the
receiver unchanged; otherwise each non-nil override field replaces the
corresponding field, and nil override fields leave the receiver field. -/
def MessageEncoders.Merge (e : MessageEncoders) (o : Option MessageEncoders) : MessageEncoders :=
  match o with
  | none => e
  | some o =>
    { Bank := match o.Bank with | some f => some f | none => e.Bank
      Custom := match o.Custom with | some f => some f | none => e.Custom
      Distribution := match o.Distribution with | some f => some f | none => e.Distribution
      IBC := match o.IBC with | some f => some f | none => e.IBC
      IBC2 := match o.IBC2 with | some f => some f | none => e.IBC2
      Staking := match o.Staking with | some f => some f | none => e.Staking
      Any := match o.Any with | some f => some f | none => e.Any
      Wasm := match o.Wasm with | some f => some f | none => e.Wasm
      Gov := match o.Gov with | some f => some f | none => e.Gov }

/-- Invoking a nil Go function value panics: dispatch through a nilable
two-argument encoder field. -/
def callE2 {A : Type} (f : Option (Addr → A → GoRes (List SdkMsg))) (a : Addr) (m : A) :
    GoRes (List SdkMsg) :=
  match f with
  | none => GoRes.panics
  | some g => g a m

/-- Dispatch through the nilable context-taking Any encoder field. -/
def callEAny (f : Option (Ctx → Addr → AnyMsg → Ctx × GoRes (List SdkMsg)))
    (ctx : Ctx) (a : Addr) (m : AnyMsg) : Ctx × GoRes (List SdkMsg) :=
  match f with
  | none => (ctx, GoRes.panics)
  | some g => g ctx a m

/-- Dispatch through the nilable context-taking IBC encoder field. -/
def callEIBC (f : Option (Ctx → Addr → String → IBCMsg → Ctx × GoRes (List SdkMsg)))
    (ctx : Ctx) (a : Addr) (p : String) (m : IBCMsg) : Ctx × GoRes (List SdkMsg) :=
  match f with
  | none => (ctx, GoRes.panics)
  | some g => g ctx a p m

/-- Embeds `MessageEncoders.Encode`: the variants are inspected in the
fixed source order Bank, Custom, Distribution, IBC, IBC2, Staking, Any,
Wasm, Gov, and the first populated one is dispatched.  The Gov case calls
the package-level `EncodeGovMsg` directly, exactly as the source does,
rather than the registered `e.Gov` field. -/
def MessageEncoders.Encode (e : MessageEncoders) (ctx : Ctx) (contractAddr : Addr)
    (contractIBCPortID : String) (msg : CosmosMsg) : Ctx × GoRes (List SdkMsg) :=
  match msg.bank with
  | some m => (ctx, callE2 e.Bank contractAddr m)
  | none =>
    match msg.custom with
    | some m => (ctx, callE2 e.Custom contractAddr m)
    | none =>
      match msg.distribution with
      | some m => (ctx, callE2 e.Distribution contractAddr m)
      | none =>
        match msg.ibc with
        | some m => callEIBC e.IBC ctx contractAddr contractIBCPortID m
        | none =>
          match msg.ibc2 with
          | some m => (ctx, callE2 e.IBC2 contractAddr m)
          | none =>
            match msg.staking with
            | some m => (ctx, callE2 e.Staking contractAddr m)
            | none =>
              match msg.any with
              | some m => callEAny e.Any ctx contractAddr m
              | none =>
                match msg.wasm with
                | some m => (ctx, callE2 e.Wasm contractAddr m)
                | none =>
                  match msg.gov with
                  | some m => (ctx, EncodeGovMsg contractAddr m)
                  | none =>
                    (ctx, GoRes.err ⟨SdkErrKind.unknownMsg, ["unknown variant of Wasm"]⟩)

/-- The nine message kinds, in the inspection order of `Encode`. -/
inductive MKind where
  | bank
  | custom
  | distribution
  | ibc
  | ibc2
  | staking
  | anyKind
  | wasm
  | gov
deriving DecidableEq

/-- The kinds populated in an abstract message, listed in the inspection
order of `Encode`. -/
def populatedKinds (m : CosmosMsg) : List MKind :=
  (match m.bank with | some _ => [MKind.bank] | none => []) ++
  (match m.custom with | some _ => [MKind.custom] | none => []) ++
  (match m.distribution with | some _ => [MKind.distribution] | none => []) ++
  (match m.ibc with | some _ => [MKind.ibc] | none => []) ++
  (match m.ibc2 with | some _ => [MKind.ibc2] | none => []) ++
  (match m.staking with | some _ => [MKind.staking] | none => []) ++
  (match m.any with | some _ => [MKind.anyKind] | none => []) ++
  (match m.wasm with | some _ => [MKind.wasm] | none => []) ++
  (match m.gov with | some _ => [MKind.gov] | none => [])

/-- The message with every variant other than `k` cleared. -/
def keepOnly (m : CosmosMsg) (k : MKind) : CosmosMsg :=
  { bank := if k = MKind.bank then m.bank else none
    custom := if k = MKind.custom then m.custom else none
    distribution := if k = MKind.distribution then m.distribution else none
    ibc := if k = MKind.ibc then m.ibc else none
    ibc2 := if k = MKind.ibc2 then m.ibc2 else none
    staking := if k = MKind.staking then m.staking else none
    any := if k = MKind.anyKind then m.any else none
    wasm := if k = MKind.wasm then m.wasm else none
    gov := if k = MKind.gov then m.gov else none }

/-- Metadata (vote justification) text of a host governance message. -/
def metadataOf : SdkMsg → Option String
  | SdkMsg.govVote _ _ _ md => some md
  | SdkMsg.govVoteWeighted _ _ _ md => some md
  | _ => none

/-- Timeout timestamp of a host IBCv2 send-packet message. -/
def timeoutOf : SdkMsg → Option Nat
  | SdkMsg.sendPacketV2 _ ts _ _ => some ts
  | _ => none

/-- Number of gas-charge events on a trace. -/
def countGas (evs : List Event) : Nat :=
  (evs.filter (fun ev => match ev with | Event.gas _ _ => true | _ => false)).length

/-- Concrete unpacker that always fails to decode; used in witnesses. -/
def unpack0 : Unpacker := ⟨fun _ _ => none, fun _ => none⟩

/-- Concrete transfer-port source; used in witnesses. -/
def port0 : Ctx → String := fun _ => "transfer"

/-- Empty execution context. -/
def ctx0 : Ctx := ⟨[]⟩

/-- Sentinel override Gov encoder returning no messages. -/
def govEnc0 : Addr → GovMsg → GoRes (List SdkMsg) := fun _ _ => GoRes.ok []

/-- Override record supplying only a Gov encoder. -/
def govOverride : MessageEncoders :=
  ⟨none, none, none, none, none, none, none, none, some govEnc0⟩

/-- Override record with every slot empty. -/
def emptyOverrides : MessageEncoders :=
  ⟨none, none, none, none, none, none, none, none, none⟩

/-- A plain vote: option Yes on proposal 7. -/
def yes7GovMsg : GovMsg := ⟨some ⟨7, WasmVoteOption.yes⟩, none⟩

/-- Abstract message with only the Gov variant populated. -/
def govCosmosMsg : CosmosMsg :=
  ⟨none, none, none, none, none, none, none, none, some yes7GovMsg⟩

/-- Abstract message with both the Bank and the Gov variant populated. -/
def multiMsg : CosmosMsg :=
  ⟨some ⟨some ⟨"dest", [⟨"uatom", "5"⟩]⟩⟩, none, none, none, none, none, none, none,
    some yes7GovMsg⟩

theorem tolist_inj : Function.Injective String.toList := by
  intro a b h
  cases a; cases b
  simp only [String.toList] at h
  exact congrArg String.mk h

theorem sumFor_nil (d : String) : sumFor d [] = 0 := rfl

theorem sumFor_cons (d : String) (c : SdkCoin) (l : List SdkCoin) :
    sumFor d (c :: l) = (if c.denom = d then c.amount else 0) + sumFor d l := by
  by_cases h : c.denom = d <;> simp [sumFor, h]

theorem sumFor_append (d : String) (l1 l2 : List SdkCoin) :
    sumFor d (l1 ++ l2) = sumFor d l1 + sumFor d l2 := by
  simp [sumFor, List.filter_append]

theorem sumFor_eq_zero_of_not_mem (d : String) (l : List SdkCoin)
    (h : d ∉ l.map SdkCoin.denom) : sumFor d l = 0 := by
  induction l with
  | nil => rfl
  | cons c cs ih =>
    simp only [List.map_cons, List.mem_cons] at h
    push_neg at h
    rw [sumFor_cons, if_neg (fun he => h.1 he.symm), ih h.2, zero_add]

theorem sumFor_perm (d : String) (l1 l2 : List SdkCoin) (h : List.Perm l1 l2) :
    sumFor d l1 = sumFor d l2 :=
  ((h.filter _).map _).sum_eq

theorem sumFor_nonneg (d : String) (l : List SdkCoin)
    (h : ∀ x ∈ l, 0 ≤ x.amount) : 0 ≤ sumFor d l := by
  refine List.sum_nonneg ?_
  intro a ha
  rcases List.mem_map.mp ha with ⟨x, hx, rfl⟩
  exact h x (List.mem_of_mem_filter hx)

theorem sumFor_single_of_nodup (l : List SdkCoin) (x : SdkCoin)
    (hnd : (l.map SdkCoin.denom).Nodup) (hx : x ∈ l) :
    sumFor x.denom l = x.amount := by
  induction l with
  | nil => cases hx
  | cons c cs ih =>
    simp only [List.map_cons, List.nodup_cons] at hnd
    rcases List.mem_cons.mp hx with rfl | hx2
    · rw [sumFor_cons, if_pos rfl,
        sumFor_eq_zero_of_not_mem _ _ hnd.1, add_zero]
    · have hne : c.denom ≠ x.denom := by
        intro he
        exact hnd.1 (he ▸ List.mem_map.mpr ⟨x, hx2, rfl⟩)
      rw [sumFor_cons, if_neg hne, ih hnd.2 hx2, zero_add]

theorem sumFor_entryList (ds : List String) (g : String → Int) (d : String)
    (hnd : ds.Nodup) :
    sumFor d (ds.map (fun d2 => SdkCoin.mk d2 (g d2))) = if d ∈ ds then g d else 0 := by
  induction ds with
  | nil => simp [sumFor_nil]
  | cons e es ih =>
    simp only [List.nodup_cons] at hnd
    rw [List.map_cons, sumFor_cons, ih hnd.2]
    by_cases he : e = d
    · have hd : d ∉ es := he ▸ hnd.1
      rw [if_pos he, if_neg hd, add_zero, if_pos (List.mem_cons.mpr (Or.inl he.symm)), he]
    · rw [if_neg he, zero_add]
      by_cases hd : d ∈ es
      · rw [if_pos hd, if_pos (List.mem_cons.mpr (Or.inr hd))]
      · rw [if_neg hd, if_neg (fun hmem =>
          (List.mem_cons.mp hmem).elim (fun h1 => he h1.symm) hd)]

theorem sumFor_filter_nonzero (d : String) (l : List SdkCoin) :
    sumFor d (l.filter (fun x => decide (x.amount ≠ 0))) = sumFor d l := by
  induction l with
  | nil => rfl
  | cons c cs ih =>
    by_cases hz : c.amount = 0
    · rw [List.filter_cons_of_neg (by simp [hz]), ih, sumFor_cons, hz]
      simp
    · rw [List.filter_cons_of_pos (by simp [hz]), sumFor_cons, ih, sumFor_cons]

theorem nodup_denoms_of_pairwise_dlt (l : List SdkCoin) (h : l.Pairwise dlt) :
    (l.map SdkCoin.denom).Nodup := by
  rw [List.Nodup, List.pairwise_map]
  refine h.imp ?_
  intro a b hab he
  rw [dlt, he] at hab
  exact lt_irrefl _ hab

theorem pairwise_dlt_of_dle_nodup (l : List SdkCoin) (h1 : l.Pairwise dle)
    (h2 : (l.map SdkCoin.denom).Nodup) : l.Pairwise dlt := by
  rw [List.Nodup, List.pairwise_map] at h2
  refine (h1.and h2).imp ?_
  intro a b hab
  rw [dlt]
  refine lt_of_le_of_ne hab.1 ?_
  intro he
  exact hab.2 (tolist_inj he)

theorem sortCoins_perm (l : List SdkCoin) : List.Perm (sortCoins l) l :=
  List.perm_insertionSort dle l

theorem sortCoins_sorted (l : List SdkCoin) : (sortCoins l).Pairwise dle :=
  List.sorted_insertionSort dle l

theorem sumEntries_aux (l : List SdkCoin) : ∀ (a : Int), 0 ≤ a →
    (∀ x ∈ l, 0 ≤ x.amount) → a + (l.map SdkCoin.amount).sum < (2 : Int) ^ 256 →
    l.foldl (fun acc c => addWithCap acc c.amount) (some a) =
      some (a + (l.map SdkCoin.amount).sum) := by
  induction l with
  | nil => intro a _ _ _; simp
  | cons c cs ih =>
    intro a ha h0 hb
    have hc : 0 ≤ c.amount := h0 c (List.mem_cons_self c cs)
    have hrest : 0 ≤ (cs.map SdkCoin.amount).sum := by
      refine List.sum_nonneg ?_
      intro x hx
      rcases List.mem_map.mp hx with ⟨y, hy, rfl⟩
      exact h0 y (List.mem_cons_of_mem c hy)
    have hsum : a + ((c :: cs).map SdkCoin.amount).sum
        = (a + c.amount) + (cs.map SdkCoin.amount).sum := by
      rw [List.map_cons, List.sum_cons, add_assoc]
    have hs : 0 ≤ a + c.amount := add_nonneg ha hc
    have hlt : a + c.amount < (2 : Int) ^ 256 := by
      have : a + c.amount ≤ a + ((c :: cs).map SdkCoin.amount).sum := by
        rw [hsum]
        exact le_add_of_nonneg_right hrest
      exact lt_of_le_of_lt this hb
    have hcap : (a + c.amount).natAbs < 2 ^ 256 := by
      have h1 : ((a + c.amount).natAbs : Int) = a + c.amount := Int.natAbs_of_nonneg hs
      have h4 : (((a + c.amount).natAbs : Int)) < (2 : Int) ^ 256 := by
        rw [h1]; exact hlt
      exact_mod_cast h4
    have hstep : addWithCap (some a) c.amount = some (a + c.amount) := by
      have hdef : addWithCap (some a) c.amount
          = if (a + c.amount).natAbs < 2 ^ 256 then some (a + c.amount) else none := rfl
      rw [hdef, if_pos hcap]
    rw [List.foldl_cons, hstep, ih (a + c.amount) hs
      (fun x hx => h0 x (List.mem_cons_of_mem c hx)) (by rw [← hsum]; exact hb)]
    rw [hsum]

theorem sumEntries_eq (l : List SdkCoin) (h0 : ∀ x ∈ l, 0 ≤ x.amount)
    (hb : (l.map SdkCoin.amount).sum < (2 : Int) ^ 256) :
    sumEntries l = some ((l.map SdkCoin.amount).sum) := by
  have := sumEntries_aux l 0 le_rfl h0 (by rw [zero_add]; exact hb)
  rw [sumEntries, this, zero_add]

theorem filterMap_of_entries (ds : List String) (F : String → Option Int)
    (g : String → Int) (h : ∀ d ∈ ds, F d = some (g d)) :
    ((ds.map (fun d => (d, F d))).filterMap
        (fun p => p.2.map (fun v => SdkCoin.mk p.1 v)))
      = ds.map (fun d => SdkCoin.mk d (g d)) := by
  induction ds with
  | nil => rfl
  | cons e es ih =>
    rw [List.map_cons, List.filterMap_cons, List.map_cons]
    rw [h e (List.mem_cons_self e es)]
    rw [ih (fun d hd => h d (List.mem_cons_of_mem e hd))]
    rfl

theorem sumFor_snoc (d : String) (acc : List SdkCoin) (c : SdkCoin) :
    sumFor d (acc ++ [c]) = sumFor d acc + (if c.denom = d then c.amount else 0) := by
  rw [sumFor_append, sumFor_cons, sumFor_nil, add_zero]

theorem entryList_denoms (ds : List String) (g : String → Int) :
    (entryList ds g).map SdkCoin.denom = ds := by
  rw [entryList, List.map_map]
  exact List.map_id ds

theorem canonList_perm (ds : List String) (g : String → Int) :
    List.Perm (canonList ds g) ((entryList ds g).filter (fun x => decide (x.amount ≠ 0))) :=
  sortCoins_perm _

theorem canonList_nodup_denoms (ds : List String) (g : String → Int) (hnd : ds.Nodup) :
    ((canonList ds g).map SdkCoin.denom).Nodup := by
  have h1 : List.Sublist
      (((entryList ds g).filter (fun x => decide (x.amount ≠ 0))).map SdkCoin.denom)
      ((entryList ds g).map SdkCoin.denom) :=
    (List.filter_sublist _).map _
  have h2 : (((entryList ds g).filter (fun x => decide (x.amount ≠ 0))).map SdkCoin.denom).Nodup :=
    ((entryList_denoms ds g) ▸ hnd).sublist h1
  exact (((canonList_perm ds g).map SdkCoin.denom).nodup_iff).mpr h2

theorem canonList_pairwise (ds : List String) (g : String → Int) (hnd : ds.Nodup) :
    (canonList ds g).Pairwise dlt :=
  pairwise_dlt_of_dle_nodup _ (sortCoins_sorted _) (canonList_nodup_denoms ds g hnd)

theorem canonList_sumFor (ds : List String) (g : String → Int) (hnd : ds.Nodup) (d : String) :
    sumFor d (canonList ds g) = if d ∈ ds then g d else 0 := by
  rw [sumFor_perm d _ _ (canonList_perm ds g), sumFor_filter_nonzero, entryList,
    sumFor_entryList ds g d hnd]

theorem canonList_mem (ds : List String) (g : String → Int) (x : SdkCoin)
    (hx : x ∈ canonList ds g) : ∃ d, d ∈ ds ∧ x = SdkCoin.mk d (g d) ∧ g d ≠ 0 := by
  have hx2 : x ∈ (entryList ds g).filter (fun y => decide (y.amount ≠ 0)) :=
    ((canonList_perm ds g).mem_iff).mp hx
  have hx3 := List.mem_filter.mp hx2
  rcases List.mem_map.mp hx3.1 with ⟨d, hd, rfl⟩
  refine ⟨d, hd, rfl, ?_⟩
  simpa using hx3.2

theorem sumFor_bound_of_canonical (acc : List SdkCoin)
    (hs : acc.Pairwise dlt)
    (hx : ∀ x ∈ acc, 0 < x.amount ∧ x.amount < (2 : Int) ^ 256) (d : String) :
    0 ≤ sumFor d acc ∧ sumFor d acc < (2 : Int) ^ 256 := by
  have hnd := nodup_denoms_of_pairwise_dlt acc hs
  by_cases hmem : d ∈ acc.map SdkCoin.denom
  · rcases List.mem_map.mp hmem with ⟨x, hxmem, rfl⟩
    rw [sumFor_single_of_nodup acc x hnd hxmem]
    exact ⟨le_of_lt (hx x hxmem).1, (hx x hxmem).2⟩
  · rw [sumFor_eq_zero_of_not_mem d acc hmem]
    exact ⟨le_rfl, by norm_num⟩

theorem coinsAdd_ok (acc : List SdkCoin) (c : SdkCoin)
    (hs : acc.Pairwise dlt)
    (hx : ∀ x ∈ acc, 0 < x.amount ∧ x.amount < (2 : Int) ^ 256)
    (hc : 0 ≤ c.amount)
    (hb : sumFor c.denom acc + c.amount < (2 : Int) ^ 256) :
    coinsAdd acc c = GoRes.ok (canonList (((acc ++ [c]).map SdkCoin.denom).dedup)
        (fun d => sumFor d (acc ++ [c]))) ∧
      (canonList (((acc ++ [c]).map SdkCoin.denom).dedup)
        (fun d => sumFor d (acc ++ [c]))).Pairwise dlt ∧
      (∀ d, sumFor d (canonList (((acc ++ [c]).map SdkCoin.denom).dedup)
        (fun d2 => sumFor d2 (acc ++ [c])))
          = sumFor d acc + (if c.denom = d then c.amount else 0)) ∧
      (∀ x ∈ canonList (((acc ++ [c]).map SdkCoin.denom).dedup)
        (fun d => sumFor d (acc ++ [c])), 0 < x.amount ∧ x.amount < (2 : Int) ^ 256) := by
  have hall0 : ∀ x ∈ acc ++ [c], 0 ≤ x.amount := by
    intro x hxm
    rcases List.mem_append.mp hxm with h1 | h2
    · exact le_of_lt (hx x h1).1
    · rw [List.mem_singleton.mp h2]; exact hc
  have hbound : ∀ d, sumFor d (acc ++ [c]) < (2 : Int) ^ 256 := by
    intro d
    rw [sumFor_snoc]
    by_cases hd : c.denom = d
    · rw [if_pos hd, ← hd]; exact hb
    · rw [if_neg hd, add_zero]
      exact (sumFor_bound_of_canonical acc hs hx d).2
  have key : ∀ d, sumEntries ((acc ++ [c]).filter (fun x => x.denom = d))
      = some (sumFor d (acc ++ [c])) := by
    intro d
    exact sumEntries_eq _ (fun x hxm => hall0 x (List.mem_of_mem_filter hxm)) (hbound d)
  have hnd : (((acc ++ [c]).map SdkCoin.denom).dedup).Nodup := List.nodup_dedup _
  have hnone : ((((acc ++ [c]).map SdkCoin.denom).dedup).map
        (fun d => (d, sumEntries ((acc ++ [c]).filter (fun x => x.denom = d))))).any
      (fun p => p.2.isNone) = false := by
    rw [List.any_eq_false]
    intro p hp
    rcases List.mem_map.mp hp with ⟨d, _, rfl⟩
    rw [key d]
    simp
  have hstep : coinsAdd acc c = GoRes.ok (canonList (((acc ++ [c]).map SdkCoin.denom).dedup)
      (fun d => sumFor d (acc ++ [c]))) := by
    unfold coinsAdd
    simp only [hnone, Bool.false_eq_true, if_false]
    rw [filterMap_of_entries _ _ (fun d => sumFor d (acc ++ [c])) (fun d _ => key d)]
    rfl
  refine ⟨hstep, canonList_pairwise _ _ hnd, ?_, ?_⟩
  · intro d
    rw [canonList_sumFor _ _ hnd d]
    by_cases hmem : d ∈ ((acc ++ [c]).map SdkCoin.denom).dedup
    · rw [if_pos hmem, sumFor_snoc]
    · rw [if_neg hmem, ← sumFor_snoc]
      have hnm : d ∉ (acc ++ [c]).map SdkCoin.denom := fun hm => hmem (List.mem_dedup.mpr hm)
      exact (sumFor_eq_zero_of_not_mem d _ hnm).symm
  · intro x hxm
    rcases canonList_mem _ _ x hxm with ⟨d, hd, rfl, hnz⟩
    exact ⟨lt_of_le_of_ne (sumFor_nonneg d _ hall0) (Ne.symm hnz), hbound d⟩

theorem convert_ok (c : WasmCoin) (a : Int) (hp : newIntFromString c.amount = some a)
    (ha : 0 ≤ a) (hd : validateDenom c.denom = true) :
    ConvertWasmCoinToSdkCoin c = GoRes.ok ⟨c.denom, a⟩ := by
  have hv : coinValidate ⟨c.denom, a⟩ = none := by
    rw [coinValidate]
    simp [hd, Int.not_lt.mpr ha]
  rw [ConvertWasmCoinToSdkCoin]
  simp only [hp, hv]

theorem goodCoin_spec (c : WasmCoin) (h : goodCoin c = true) :
    ∃ a, newIntFromString c.amount = some a ∧ 0 ≤ a ∧ validateDenom c.denom = true ∧
      wAmount c = a := by
  unfold goodCoin at h
  rcases hb : newIntFromString c.amount with _ | a
  · rw [hb] at h; simp at h
  · rw [hb] at h
    simp only [Bool.and_eq_true, decide_eq_true_eq] at h
    exact ⟨a, rfl, h.1, h.2, by rw [wAmount, hb]⟩

theorem wsumFor_nil (d : String) : wsumFor d [] = 0 := rfl

theorem wsumFor_cons (d : String) (c : WasmCoin) (l : List WasmCoin) :
    wsumFor d (c :: l) = (if c.denom = d then wAmount c else 0) + wsumFor d l := by
  by_cases h : c.denom = d <;> simp [wsumFor, h]

theorem wsumFor_nonneg (d : String) (l : List WasmCoin)
    (h : ∀ c ∈ l, goodCoin c = true) : 0 ≤ wsumFor d l := by
  refine List.sum_nonneg ?_
  intro x hx
  rcases List.mem_map.mp hx with ⟨y, hy, rfl⟩
  rcases goodCoin_spec y (h y (List.mem_of_mem_filter hy)) with ⟨a, _, ha, _, hwa⟩
  rw [hwa]; exact ha

theorem wsumFor_eq_zero_of_not_mem (d : String) (l : List WasmCoin)
    (h : d ∉ l.map WasmCoin.denom) : wsumFor d l = 0 := by
  induction l with
  | nil => rfl
  | cons c cs ih =>
    simp only [List.map_cons, List.mem_cons] at h
    push_neg at h
    rw [wsumFor_cons, if_neg (fun he => h.1 he.symm), ih h.2, zero_add]

theorem convertLoop_spec : ∀ (rest : List WasmCoin) (acc : List SdkCoin),
    (∀ c ∈ rest, goodCoin c = true) →
    acc.Pairwise dlt →
    (∀ x ∈ acc, 0 < x.amount ∧ x.amount < (2 : Int) ^ 256) →
    (∀ d, sumFor d acc + wsumFor d rest < (2 : Int) ^ 256) →
    ∃ out, convertLoop acc rest = GoRes.ok out ∧ out.Pairwise dlt ∧
      (∀ d, sumFor d out = sumFor d acc + wsumFor d rest) ∧
      (∀ x ∈ out, 0 < x.amount ∧ x.amount < (2 : Int) ^ 256) := by
  intro rest
  induction rest with
  | nil =>
    intro acc _ hs hx _
    exact ⟨acc, rfl, hs, fun d => by rw [wsumFor_nil, add_zero], hx⟩
  | cons c cs ih =>
    intro acc hg hs hx hb
    rcases goodCoin_spec c (hg c (List.mem_cons_self c cs)) with ⟨a, hp, ha, hd, hwa⟩
    have hcv := convert_ok c a hp ha hd
    have hwnn : ∀ d, 0 ≤ wsumFor d cs :=
      fun d => wsumFor_nonneg d cs (fun y hy => hg y (List.mem_cons_of_mem c hy))
    have hbc : sumFor c.denom acc + a < (2 : Int) ^ 256 := by
      have h1 := hb c.denom
      rw [wsumFor_cons, if_pos rfl, hwa] at h1
      have h2 := hwnn c.denom
      linarith
    rcases coinsAdd_ok acc ⟨c.denom, a⟩ hs hx ha hbc with ⟨hadd, hP, hsum2, hx2⟩
    set acc2 := canonList (((acc ++ [(⟨c.denom, a⟩ : SdkCoin)]).map SdkCoin.denom).dedup)
        (fun d => sumFor d (acc ++ [(⟨c.denom, a⟩ : SdkCoin)])) with hacc2
    have hb2 : ∀ d, sumFor d acc2 + wsumFor d cs < (2 : Int) ^ 256 := by
      intro d
      rw [hsum2 d]
      have h1 := hb d
      rw [wsumFor_cons, hwa] at h1
      have h2 : ((if (⟨c.denom, a⟩ : SdkCoin).denom = d then (⟨c.denom, a⟩ : SdkCoin).amount
          else 0) : Int) = if c.denom = d then a else 0 := rfl
      rw [h2]
      linarith
    rcases ih acc2 (fun y hy => hg y (List.mem_cons_of_mem c hy)) hP hx2 hb2 with
      ⟨out, hloop, ho1, ho2, ho3⟩
    refine ⟨out, ?_, ho1, ?_, ho3⟩
    · simp only [convertLoop, hcv, hadd]
      exact hloop
    · intro d
      rw [ho2 d, hsum2 d, wsumFor_cons, hwa]
      have h2 : ((if (⟨c.denom, a⟩ : SdkCoin).denom = d then (⟨c.denom, a⟩ : SdkCoin).amount
          else 0) : Int) = if c.denom = d then a else 0 := rfl
      rw [h2, add_assoc]

/-- C3 (amended): for every coin list whose amounts all parse as
non-negative integers, whose denominations pass the denomination syntax
check, and whose per-denomination totals stay below the 256-bit overflow
threshold of the library integer type, `ConvertWasmCoinsToSdkCoins`
succeeds with a list whose denominations are strictly ascending (hence
unique) and in which every entry carries exactly the arbitrary-precision
sum of the input amounts of its denomination; every denomination with a
non-zero total is represented. -/
theorem c3_normalize_sorted_sums (coins : List WasmCoin)
    (hg : ∀ c ∈ coins, goodCoin c = true)
    (hb : ∀ c ∈ coins, wsumFor c.denom coins < (2 : Int) ^ 256) :
    ∃ out, ConvertWasmCoinsToSdkCoins coins = GoRes.ok out ∧
      out.Pairwise dlt ∧
      (∀ x ∈ out, x.amount = wsumFor x.denom coins) ∧
      (∀ c ∈ coins, wsumFor c.denom coins ≠ 0 → c.denom ∈ out.map SdkCoin.denom) := by
  have hball : ∀ d, sumFor d [] + wsumFor d coins < (2 : Int) ^ 256 := by
    intro d
    rw [sumFor_nil, zero_add]
    by_cases hmem : d ∈ coins.map WasmCoin.denom
    · rcases List.mem_map.mp hmem with ⟨c, hc, rfl⟩
      exact hb c hc
    · rw [wsumFor_eq_zero_of_not_mem d coins hmem]; norm_num
  rcases convertLoop_spec coins [] hg List.Pairwise.nil (by intro x hx; cases hx) hball with
    ⟨out0, hloop, h1, h2, _⟩
  have hout : ConvertWasmCoinsToSdkCoins coins = GoRes.ok (sortCoins out0) := by
    rw [ConvertWasmCoinsToSdkCoins, hloop]
  have hperm := sortCoins_perm out0
  have hnd0 : (out0.map SdkCoin.denom).Nodup := nodup_denoms_of_pairwise_dlt out0 h1
  have hnds : ((sortCoins out0).map SdkCoin.denom).Nodup := ((hperm.map _).nodup_iff).mpr hnd0
  refine ⟨sortCoins out0, hout, pairwise_dlt_of_dle_nodup _ (sortCoins_sorted out0) hnds,
    ?_, ?_⟩
  · intro x hx
    have hxo : x ∈ out0 := (hperm.mem_iff).mp hx
    have hself := sumFor_single_of_nodup out0 x hnd0 hxo
    have h2x := h2 x.denom
    rw [sumFor_nil, zero_add] at h2x
    rw [← hself]
    exact h2x
  · intro c hc hnz
    have h2c := h2 c.denom
    rw [sumFor_nil, zero_add] at h2c
    by_contra hno
    have hnm : c.denom ∉ out0.map SdkCoin.denom := by
      intro hmem
      exact hno (((hperm.map SdkCoin.denom).mem_iff).mpr hmem)
    exact hnz (h2c.symm.trans (sumFor_eq_zero_of_not_mem c.denom out0 hnm))

/-- C3 counterexample for the claim as frozen: (1) a coin whose amount
parses as a valid non-negative integer but whose denomination is
syntactically invalid makes the conversion fail instead of returning a
list; (2) two coins of one denomination, each holding the largest
representable amount, make the summation exceed 256 bits — the library
integer addition panics, so no arbitrary-precision sum is returned. -/
theorem c3_counterexample :
    ConvertWasmCoinsToSdkCoins [⟨"!!", "5"⟩] =
      GoRes.err ⟨SdkErrKind.invalidDenom, ["!!"]⟩ ∧
    ConvertWasmCoinsToSdkCoins
      [⟨"stake", "115792089237316195423570985008687907853269984665640564039457584007913129639935"⟩,
       ⟨"stake", "115792089237316195423570985008687907853269984665640564039457584007913129639935"⟩]
      = GoRes.panics := by
  constructor
  · decide
  · decide

/-- C3 witness: a concrete list with a duplicated denomination for which
the amended theorem applies; the two hypotheses are discharged by
computation. -/
theorem c3_witness :
    ∃ out, ConvertWasmCoinsToSdkCoins [⟨"ustake", "2"⟩, ⟨"uatom", "1"⟩, ⟨"ustake", "3"⟩]
        = GoRes.ok out ∧
      out.Pairwise dlt ∧
      (∀ x ∈ out, x.amount =
        wsumFor x.denom [⟨"ustake", "2"⟩, ⟨"uatom", "1"⟩, ⟨"ustake", "3"⟩]) ∧
      (∀ c ∈ [(⟨"ustake", "2"⟩ : WasmCoin), ⟨"uatom", "1"⟩, ⟨"ustake", "3"⟩],
        wsumFor c.denom [(⟨"ustake", "2"⟩ : WasmCoin), ⟨"uatom", "1"⟩, ⟨"ustake", "3"⟩] ≠ 0 →
          c.denom ∈ out.map SdkCoin.denom) :=
  c3_normalize_sorted_sums _ (by decide) (by decide)

theorem coinValidate_some_of_neg (d : String) (a : Int) (ha : a < 0) :
    ∃ e, coinValidate ⟨d, a⟩ = some e := by
  rw [coinValidate]
  by_cases hv : validateDenom d = false
  · exact ⟨_, by rw [if_pos hv]⟩
  · exact ⟨_, by rw [if_neg hv, if_pos ha]⟩

theorem convert_err_of_malformed (c : WasmCoin) (h : malformedAmount c) :
    ∃ e, ConvertWasmCoinToSdkCoin c = GoRes.err e := by
  rcases h with h0 | ⟨a, hp, hneg⟩
  · exact ⟨⟨SdkErrKind.invalidCoins, [c.amount ++ c.denom]⟩,
      by rw [ConvertWasmCoinToSdkCoin]; simp only [h0]⟩
  · rcases coinValidate_some_of_neg c.denom a hneg with ⟨e, he⟩
    exact ⟨e, by rw [ConvertWasmCoinToSdkCoin]; simp only [hp, he]⟩

theorem convertLoop_never_ok (c : WasmCoin)
    (hc : ∃ e, ConvertWasmCoinToSdkCoin c = GoRes.err e) :
    ∀ (l : List WasmCoin) (acc out : List SdkCoin), c ∈ l →
      convertLoop acc l ≠ GoRes.ok out := by
  intro l
  induction l with
  | nil => intro acc out hmem; cases hmem
  | cons d ds ih =>
    intro acc out hmem heq
    rcases List.mem_cons.mp hmem with rfl | hmem2
    · rcases hc with ⟨e, he⟩
      simp [convertLoop, he] at heq
    · cases hcv : ConvertWasmCoinToSdkCoin d with
      | err e => simp [convertLoop, hcv] at heq
      | panics => simp [convertLoop, hcv] at heq
      | ok sc =>
        cases hca : coinsAdd acc sc with
        | err e => simp [convertLoop, hcv, hca] at heq
        | panics => simp [convertLoop, hcv, hca] at heq
        | ok acc2 =>
          simp only [convertLoop, hcv, hca] at heq
          exact ih acc2 out hmem2 heq

/-- C4 (amended): a malformed amount string (non-numeric, empty, or
negative) makes single-coin and list normalization fail with an error and
produce no coin list; the error kind is the amount-parse (invalid-coins)
wrap for amounts that do not parse, and the negative-amount error for
parsed negative amounts with a well-formed denomination (a negative amount
with an invalid denomination reports the denomination error instead). -/
theorem c4_malformed_amount_errors (c : WasmCoin) (h : malformedAmount c) :
    (newIntFromString c.amount = none →
      ConvertWasmCoinToSdkCoin c =
        GoRes.err ⟨SdkErrKind.invalidCoins, [c.amount ++ c.denom]⟩) ∧
    (∀ a, newIntFromString c.amount = some a → a < 0 → validateDenom c.denom = true →
      ConvertWasmCoinToSdkCoin c =
        GoRes.err ⟨SdkErrKind.negativeAmount, [toString a]⟩) ∧
    (∃ e, ConvertWasmCoinToSdkCoin c = GoRes.err e) ∧
    (∀ rest, ∃ e2, ConvertWasmCoinsToSdkCoins (c :: rest) = GoRes.err e2) ∧
    (∀ l out, c ∈ l → ConvertWasmCoinsToSdkCoins l ≠ GoRes.ok out) := by
  refine ⟨?_, ?_, convert_err_of_malformed c h, ?_, ?_⟩
  · intro h0
    rw [ConvertWasmCoinToSdkCoin]
    simp only [h0]
  · intro a hp hneg hd
    have hv : coinValidate ⟨c.denom, a⟩ = some ⟨SdkErrKind.negativeAmount, [toString a]⟩ := by
      rw [coinValidate]
      simp only [hd]
      rw [if_neg (by simp), if_pos hneg]
    rw [ConvertWasmCoinToSdkCoin]
    simp only [hp, hv]
  · intro rest
    rcases convert_err_of_malformed c h with ⟨e, he⟩
    refine ⟨e, ?_⟩
    rw [ConvertWasmCoinsToSdkCoins]
    simp only [convertLoop, he]
  · intro l out hmem heq
    cases hl : convertLoop [] l with
    | ok o =>
      exact convertLoop_never_ok c (convert_err_of_malformed c h) l [] o hmem hl
    | err e => rw [ConvertWasmCoinsToSdkCoins, hl] at heq; cases heq
    | panics => rw [ConvertWasmCoinsToSdkCoins, hl] at heq; cases heq

/-- C4 counterexample for the claim as frozen: a coin with a negative
amount and an invalid denomination fails with the denomination error, not
an amount-parse error. -/
theorem c4_counterexample :
    ConvertWasmCoinToSdkCoin ⟨"!!", "-5"⟩ = GoRes.err ⟨SdkErrKind.invalidDenom, ["!!"]⟩ ∧
    SdkErrKind.invalidDenom ≠ SdkErrKind.invalidCoins ∧
    SdkErrKind.invalidDenom ≠ SdkErrKind.negativeAmount := by
  decide

/-- C4 witness: concrete malformed amounts — a non-numeric amount, and a
negative amount with a valid denomination — run through the amended
theorem. -/
theorem c4_witness :
    ConvertWasmCoinToSdkCoin ⟨"uatom", "abc"⟩ =
      GoRes.err ⟨SdkErrKind.invalidCoins, ["abcuatom"]⟩ ∧
    ConvertWasmCoinToSdkCoin ⟨"uatom", "-5"⟩ =
      GoRes.err ⟨SdkErrKind.negativeAmount, [toString (-5 : Int)]⟩ ∧
    (∃ e2, ConvertWasmCoinsToSdkCoins [⟨"uatom", "abc"⟩] = GoRes.err e2) :=
  ⟨(c4_malformed_amount_errors ⟨"uatom", "abc"⟩ (Or.inl (by decide))).1 (by decide),
   (c4_malformed_amount_errors ⟨"uatom", "-5"⟩
     (Or.inr ⟨-5, by decide, by decide⟩)).2.1 (-5) (by decide) (by decide) (by decide),
   ((c4_malformed_amount_errors ⟨"uatom", "abc"⟩ (Or.inl (by decide))).2.2.2.1) []⟩

/-- C1: the registry built by `DefaultEncoders` and merged with an
override record supplying a Gov encoder does carry the override in its
Gov slot, yet dispatching a message whose Gov variant is populated runs
the built-in `EncodeGovMsg` — whose output differs from the override
output — so the dispatcher bypasses the registered Gov encoder. -/
theorem c1_gov_override_bypassed :
    ((DefaultEncoders unpack0 port0).Merge (some govOverride)).Gov = some govEnc0 ∧
    (((DefaultEncoders unpack0 port0).Merge (some govOverride)).Encode ctx0 "contract" "port"
        govCosmosMsg).2 = EncodeGovMsg "contract" yes7GovMsg ∧
    EncodeGovMsg "contract" yes7GovMsg =
      GoRes.ok [SdkMsg.govVote 7 "contract" VoteOptionV1.optionYes ""] ∧
    govEnc0 "contract" yes7GovMsg = GoRes.ok [] ∧
    GoRes.ok ([] : List SdkMsg) ≠
      GoRes.ok [SdkMsg.govVote 7 "contract" VoteOptionV1.optionYes ""] :=
  ⟨rfl, rfl, rfl, rfl, by decide⟩

/-- C2: for every unpacker, execution context, sender, and Any message,
the encoder produced by `EncodeAnyMsg` appends to the context trace
exactly one gas charge — the fixed generic-decode cost — immediately
followed by the unpack invocation, independently of the unpack outcome:
the charge happens exactly once and before the decode attempt. -/
theorem c2_any_gas_once_before_unpack (u : Unpacker) (ctx : Ctx) (sender : Addr)
    (msg : AnyMsg) :
    ((EncodeAnyMsg u ctx sender msg).1.events
      = ctx.events ++ [Event.gas (anyMsgGasCost / DefaultGasMultiplier) "unpacking AnyMsg",
          Event.unpackCall msg.typeURL]) ∧
    countGas (EncodeAnyMsg u ctx sender msg).1.events = countGas ctx.events + 1 := by
  have htrace : (EncodeAnyMsg u ctx sender msg).1.events
      = ctx.events ++ [Event.gas (anyMsgGasCost / DefaultGasMultiplier) "unpacking AnyMsg",
          Event.unpackCall msg.typeURL] := by
    cases hu : u.unpackAny msg.typeURL msg.value with
    | none => simp [EncodeAnyMsg, hu, consumeGas, recordUnpack]
    | some m =>
      cases hi : u.unpackInterfaces m with
      | none => simp [EncodeAnyMsg, hu, hi, consumeGas, recordUnpack]
      | some t => simp [EncodeAnyMsg, hu, hi, consumeGas, recordUnpack]
  refine ⟨htrace, ?_⟩
  rw [htrace, countGas, countGas, List.filter_append, List.length_append]
  simp

/-- C5: `Merge` with a non-nil override record replaces exactly the
fields the override populates and keeps every other field of the base;
merging with the nil record or with the all-empty override record is the
identity. -/
theorem c5_merge_exact (e o : MessageEncoders) :
    (∀ f, o.Bank = some f → (e.Merge (some o)).Bank = some f) ∧
    (o.Bank = none → (e.Merge (some o)).Bank = e.Bank) ∧
    (∀ f, o.Custom = some f → (e.Merge (some o)).Custom = some f) ∧
    (o.Custom = none → (e.Merge (some o)).Custom = e.Custom) ∧
    (∀ f, o.Distribution = some f → (e.Merge (some o)).Distribution = some f) ∧
    (o.Distribution = none → (e.Merge (some o)).Distribution = e.Distribution) ∧
    (∀ f, o.IBC = some f → (e.Merge (some o)).IBC = some f) ∧
    (o.IBC = none → (e.Merge (some o)).IBC = e.IBC) ∧
    (∀ f, o.IBC2 = some f → (e.Merge (some o)).IBC2 = some f) ∧
    (o.IBC2 = none → (e.Merge (some o)).IBC2 = e.IBC2) ∧
    (∀ f, o.Staking = some f → (e.Merge (some o)).Staking = some f) ∧
    (o.Staking = none → (e.Merge (some o)).Staking = e.Staking) ∧
    (∀ f, o.Any = some f → (e.Merge (some o)).Any = some f) ∧
    (o.Any = none → (e.Merge (some o)).Any = e.Any) ∧
    (∀ f, o.Wasm = some f → (e.Merge (some o)).Wasm = some f) ∧
    (o.Wasm = none → (e.Merge (some o)).Wasm = e.Wasm) ∧
    (∀ f, o.Gov = some f → (e.Merge (some o)).Gov = some f) ∧
    (o.Gov = none → (e.Merge (some o)).Gov = e.Gov) ∧
    (e.Merge none = e) ∧
    (e.Merge (some emptyOverrides) = e) := by
  refine ⟨fun f h => by simp [MessageEncoders.Merge, h],
    fun h => by simp [MessageEncoders.Merge, h],
    fun f h => by simp [MessageEncoders.Merge, h],
    fun h => by simp [MessageEncoders.Merge, h],
    fun f h => by simp [MessageEncoders.Merge, h],
    fun h => by simp [MessageEncoders.Merge, h],
    fun f h => by simp [MessageEncoders.Merge, h],
    fun h => by simp [MessageEncoders.Merge, h],
    fun f h => by simp [MessageEncoders.Merge, h],
    fun h => by simp [MessageEncoders.Merge, h],
    fun f h => by simp [MessageEncoders.Merge, h],
    fun h => by simp [MessageEncoders.Merge, h],
    fun f h => by simp [MessageEncoders.Merge, h],
    fun h => by simp [MessageEncoders.Merge, h],
    fun f h => by simp [MessageEncoders.Merge, h],
    fun h => by simp [MessageEncoders.Merge, h],
    fun f h => by simp [MessageEncoders.Merge, h],
    fun h => by simp [MessageEncoders.Merge, h],
    rfl, rfl⟩

/-- C5 witness: the default registry merged with the Gov-only override
carries the override in the Gov slot and the default in the Bank slot. -/
theorem c5_merge_witness :
    ((DefaultEncoders unpack0 port0).Merge (some govOverride)).Gov = some govEnc0 ∧
    ((DefaultEncoders unpack0 port0).Merge (some govOverride)).Bank = some EncodeBankMsg := by
  have h := c5_merge_exact (DefaultEncoders unpack0 port0) govOverride
  exact ⟨h.2.2.2.2.2.2.2.2.2.2.2.2.2.2.2.2.1 govEnc0 rfl, h.2.1 rfl⟩

/-- C6 (amended): a populated fee sub-kind is rejected with an explicit
error — never silently ignored and never yielding host messages — but the
error wraps the same `ErrUnknownMsg` base kind as the unmatched-variant
error; only the message text distinguishes it. -/
theorem c6_fee_rejected (portSource : Ctx → String) (ctx : Ctx) (sender : Addr)
    (portID : String) (m : IBCMsg) (h1 : m.closeChannel = none) (h2 : m.transfer = none) :
    (∀ f, m.payPacketFee = some f →
      EncodeIBCMsg portSource ctx sender portID m =
        (ctx, GoRes.err ⟨SdkErrKind.unknownMsg, ["pay packet fee not supported"]⟩)) ∧
    (m.payPacketFee = none → ∀ f, m.payPacketFeeAsync = some f →
      EncodeIBCMsg portSource ctx sender portID m =
        (ctx, GoRes.err ⟨SdkErrKind.unknownMsg, ["pay packet fee async not supported"]⟩)) := by
  constructor
  · intro f h3
    simp [EncodeIBCMsg, h1, h2, h3]
  · intro h3 f h4
    simp [EncodeIBCMsg, h1, h2, h3, h4]

/-- C6 counterexample for the claim as frozen: the fee rejection error
carries the same base error kind as the unknown-variant error, so it is
not a kind distinct from `UnknownKind`. -/
theorem c6_counterexample :
    (EncodeIBCMsg port0 ctx0 "contract" "port"
        ⟨none, none, some ⟨"p", "ch"⟩, none⟩).2 =
      GoRes.err ⟨SdkErrKind.unknownMsg, ["pay packet fee not supported"]⟩ ∧
    (⟨SdkErrKind.unknownMsg, ["pay packet fee not supported"]⟩ : EncErr).kind =
      (⟨SdkErrKind.unknownMsg, ["unknown variant of IBC"]⟩ : EncErr).kind :=
  ⟨rfl, rfl⟩

/-- C6 witness: a concrete async fee message run through the amended
theorem. -/
theorem c6_fee_witness :
    EncodeIBCMsg port0 ctx0 "contract" "port" ⟨none, none, none, some ⟨"p", "ch"⟩⟩ =
      (ctx0, GoRes.err ⟨SdkErrKind.unknownMsg, ["pay packet fee async not supported"]⟩) :=
  (c6_fee_rejected port0 ctx0 "contract" "port" ⟨none, none, none, some ⟨"p", "ch"⟩⟩
    rfl rfl).2 rfl ⟨"p", "ch"⟩ rfl

/-- C7 (amended): for send-packet timeouts below 2 ^ 63 nanoseconds, the
host message timeout timestamp is the timeout divided by 1e9, truncated
toward zero; at 2 ^ 63 and above, the signed-64-bit reinterpretation
inside the conversion yields a different value. -/
theorem c7_timeout_truncation (sender : Addr) (m : IBC2Msg) (sp : IBC2SendPacketMsg)
    (hm : m.sendPacket = some sp) (ht : sp.timeout < 2 ^ 63) :
    ∃ msgs, EncodeIBCv2Msg sender m = GoRes.ok msgs ∧
      msgs.map timeoutOf = [some (sp.timeout / 1000000000)] := by
  have hgo : goUnixFromNanos sp.timeout = sp.timeout / 1000000000 := by
    unfold goUnixFromNanos
    rw [if_pos ht]
    have h1 : Int.fdiv ((sp.timeout : Nat) : Int) 1000000000
        = ((sp.timeout / 1000000000 : Nat) : Int) := by
      have h0 := Int.ofNat_fdiv sp.timeout 1000000000
      exact_mod_cast h0.symm
    rw [h1]
    have h2 : ((sp.timeout / 1000000000 : Nat) : Int) < 2 ^ 64 := by
      have h3 : sp.timeout / 1000000000 < 2 ^ 64 :=
        lt_of_le_of_lt (Nat.div_le_self _ _) (lt_trans ht (by norm_num))
      exact_mod_cast h3
    rw [Int.emod_eq_of_lt (Int.ofNat_nonneg _) h2]
    exact Int.toNat_natCast _
  refine ⟨[SdkMsg.sendPacketV2 sp.sourceClient (goUnixFromNanos sp.timeout)
      (sp.payloads.map (fun pl =>
        ⟨pl.sourcePort, pl.destinationPort, pl.version, pl.encoding, pl.value⟩)) sender],
    ?_, ?_⟩
  · simp only [EncodeIBCv2Msg, hm]
  · simp only [List.map_cons, List.map_nil, timeoutOf, hgo]

/-- C7 counterexample for the claim as frozen: at timeout 2 ^ 63 the
generated timeout timestamp is not the truncated division by 1e9. -/
theorem c7_counterexample :
    EncodeIBCv2Msg "contract" ⟨some ⟨"client-1", [], 9223372036854775808⟩⟩ =
      GoRes.ok [SdkMsg.sendPacketV2 "client-1" 18446744064486179579 [] "contract"] ∧
    (18446744064486179579 : Nat) ≠ 9223372036854775808 / 1000000000 := by
  constructor
  · decide
  · decide

/-- C7 witness: a 1.5-second timeout truncates to a 1-second timestamp. -/
theorem c7_timeout_witness :
    ∃ msgs, EncodeIBCv2Msg "contract" ⟨some ⟨"client-1", [], 1500000000⟩⟩ = GoRes.ok msgs ∧
      msgs.map timeoutOf = [some (1500000000 / 1000000000)] :=
  c7_timeout_truncation "contract" ⟨some ⟨"client-1", [], 1500000000⟩⟩
    ⟨"client-1", [], 1500000000⟩ rfl (by decide)

/-- C8: a bank send with an empty amount list yields the empty message
sequence without error; with a non-empty list that normalizes, it yields
exactly one host bank-send from the sender to the destination carrying
the normalized coins; a normalization error is propagated unchanged with
no messages. -/
theorem c8_bank_encode (sender : Addr) (m : BankMsg) (s : SendMsg) (hm : m.send = some s) :
    (s.amount = [] → EncodeBankMsg sender m = GoRes.ok []) ∧
    (∀ cs, ConvertWasmCoinsToSdkCoins s.amount = GoRes.ok cs → s.amount ≠ [] →
      EncodeBankMsg sender m = GoRes.ok [SdkMsg.bankSend sender s.toAddress cs]) ∧
    (∀ er, ConvertWasmCoinsToSdkCoins s.amount = GoRes.err er →
      EncodeBankMsg sender m = GoRes.err er) := by
  refine ⟨?_, ?_, ?_⟩
  · intro h0
    simp [EncodeBankMsg, hm, h0]
  · intro cs hc hne
    simp [EncodeBankMsg, hm, if_neg hne, hc]
  · intro er he
    have hne : s.amount ≠ [] := by
      intro h0
      have hemp : ConvertWasmCoinsToSdkCoins [] = GoRes.ok [] := rfl
      rw [h0, hemp] at he
      cases he
    simp [EncodeBankMsg, hm, if_neg hne, he]

/-- C8 witness: the empty-amount no-op and a one-coin send, through the
theorem at concrete inputs. -/

theorem c8_bank_witness :
    EncodeBankMsg "contract" ⟨some ⟨"dest", []⟩⟩ = GoRes.ok [] ∧
    EncodeBankMsg "contract" ⟨some ⟨"dest", [⟨"uatom", "5"⟩]⟩⟩ =
      GoRes.ok [SdkMsg.bankSend "contract" "dest" [⟨"uatom", 5⟩]] :=
  ⟨(c8_bank_encode "contract" ⟨some ⟨"dest", []⟩⟩ ⟨"dest", []⟩ rfl).1 rfl,
   (c8_bank_encode "contract" ⟨some ⟨"dest", [⟨"uatom", "5"⟩]⟩⟩ ⟨"dest", [⟨"uatom", "5"⟩]⟩
     rfl).2.1 [⟨"uatom", 5⟩] (by decide) (by decide)⟩

/-- C9: every governance message — plain or weighted — that encodes
successfully produces exactly one host vote message whose metadata
(justification) text is the empty string. -/
theorem c9_gov_empty_metadata (sender : Addr) (m : GovMsg) (msgs : List SdkMsg)
    (h : EncodeGovMsg sender m = GoRes.ok msgs) :
    ∃ one, msgs = [one] ∧ metadataOf one = some "" := by
  rcases hv : m.vote with _ | v
  · rcases hw : m.voteWeighted with _ | vw
    · simp [EncodeGovMsg, hv, hw] at h
    · cases hb : buildWeightedOpts 0 vw.options with
      | err e => simp [EncodeGovMsg, hv, hw, hb] at h
      | panics => simp [EncodeGovMsg, hv, hw, hb] at h
      | ok opts =>
        simp only [EncodeGovMsg, hv, hw, hb] at h
        cases h
        exact ⟨_, rfl, rfl⟩
  · cases hc : convertVoteOption v.option with
    | err e => simp [EncodeGovMsg, hv, hc] at h
    | panics => simp [EncodeGovMsg, hv, hc] at h
    | ok opt =>
      simp only [EncodeGovMsg, hv, hc] at h
      cases h
      exact ⟨_, rfl, rfl⟩

/-- C9 witness: vote Yes on proposal 7 — one host vote message with
proposal id 7, option Yes, and empty metadata, fed through the theorem. -/
theorem c9_gov_witness :
    EncodeGovMsg "contract" yes7GovMsg =
      GoRes.ok [SdkMsg.govVote 7 "contract" VoteOptionV1.optionYes ""] ∧
    (∃ one, [SdkMsg.govVote 7 "contract" VoteOptionV1.optionYes ""] = [one] ∧
      metadataOf one = some "") :=
  ⟨rfl, c9_gov_empty_metadata "contract" yes7GovMsg
    [SdkMsg.govVote 7 "contract" VoteOptionV1.optionYes ""] rfl⟩

/-- C10: `Encode` never reports a multiple-variant error: with at least
one populated variant it behaves exactly as on the message reduced to the
first populated variant in the inspection order Bank, Custom,
Distribution, IBC, IBC2, Staking, Any, Wasm, Gov — every other populated
variant is ignored; only a message with zero populated variants yields
the unknown-variant error. -/
theorem c10_dispatch_first_populated (e : MessageEncoders) (ctx : Ctx) (addr : Addr)
    (port : String) (m : CosmosMsg) :
    (populatedKinds m = [] →
      MessageEncoders.Encode e ctx addr port m =
        (ctx, GoRes.err ⟨SdkErrKind.unknownMsg, ["unknown variant of Wasm"]⟩)) ∧
    (∀ k ks, populatedKinds m = k :: ks →
      MessageEncoders.Encode e ctx addr port m =
        MessageEncoders.Encode e ctx addr port (keepOnly m k)) := by
  rcases m with ⟨b, c, d, i, i2, s, a, w, g⟩
  constructor
  · intro h
    cases b with
    | some x => simp [populatedKinds] at h
    | none =>
      cases c with
      | some x => simp [populatedKinds] at h
      | none =>
        cases d with
        | some x => simp [populatedKinds] at h
        | none =>
          cases i with
          | some x => simp [populatedKinds] at h
          | none =>
            cases i2 with
            | some x => simp [populatedKinds] at h
            | none =>
              cases s with
              | some x => simp [populatedKinds] at h
              | none =>
                cases a with
                | some x => simp [populatedKinds] at h
                | none =>
                  cases w with
                  | some x => simp [populatedKinds] at h
                  | none =>
                    cases g with
                    | some x => simp [populatedKinds] at h
                    | none => rfl
  · intro k ks h
    cases b with
    | some x =>
      simp only [populatedKinds, List.cons_append, List.nil_append, List.singleton_append] at h
      injection h with h1 _
      subst h1
      rfl
    | none =>
      cases c with
      | some x =>
        simp only [populatedKinds, List.cons_append, List.nil_append,
          List.singleton_append] at h
        injection h with h1 _
        subst h1
        rfl
      | none =>
        cases d with
        | some x =>
          simp only [populatedKinds, List.cons_append, List.nil_append,
            List.singleton_append] at h
          injection h with h1 _
          subst h1
          rfl
        | none =>
          cases i with
          | some x =>
            simp only [populatedKinds, List.cons_append, List.nil_append,
              List.singleton_append] at h
            injection h with h1 _
            subst h1
            rfl
          | none =>
            cases i2 with
            | some x =>
              simp only [populatedKinds, List.cons_append, List.nil_append,
                List.singleton_append] at h
              injection h with h1 _
              subst h1
              rfl
            | none =>
              cases s with
              | some x =>
                simp only [populatedKinds, List.cons_append, List.nil_append,
                  List.singleton_append] at h
                injection h with h1 _
                subst h1
                rfl
              | none =>
                cases a with
                | some x =>
                  simp only [populatedKinds, List.cons_append, List.nil_append,
                    List.singleton_append] at h
                  injection h with h1 _
                  subst h1
                  rfl
                | none =>
                  cases w with
                  | some x =>
                    simp only [populatedKinds, List.cons_append, List.nil_append,
                      List.singleton_append] at h
                    injection h with h1 _
                    subst h1
                    rfl
                  | none =>
                    cases g with
                    | some x =>
                      simp only [populatedKinds, List.cons_append, List.nil_append,
                        List.singleton_append] at h
                      injection h with h1 _
                      subst h1
                      rfl
                    | none =>
                      simp [populatedKinds] at h

/-- C10 witness: a message with Bank and Gov both populated dispatches
exactly as the Bank-only message, and yields the bank-send host message —
no error. -/
theorem c10_dispatch_witness :
    MessageEncoders.Encode (DefaultEncoders unpack0 port0) ctx0 "contract" "port" multiMsg =
      MessageEncoders.Encode (DefaultEncoders unpack0 port0) ctx0 "contract" "port"
        (keepOnly multiMsg MKind.bank) ∧
    (MessageEncoders.Encode (DefaultEncoders unpack0 port0) ctx0 "contract" "port"
        multiMsg).2 = GoRes.ok [SdkMsg.bankSend "contract" "dest" [⟨"uatom", 5⟩]] :=
  ⟨(c10_dispatch_first_populated (DefaultEncoders unpack0 port0) ctx0 "contract" "port"
      multiMsg).2 MKind.bank [MKind.gov] rfl,
   by decide⟩
